import Mathlib

/-!
Verification of the incremental CMS-catalog mirroring pipeline (src/main.py).

Strings are modelled as lists of characters (Str), the checkpoint dictionary
as a function from identifier to optional stored string, calendar dates as
year/month/day triples ordered lexicographically, and the two effectful steps
of a worker task (download, write) as an environment of fallible functions.
Every definition follows the corresponding Python code in src/main.py.
-/

/-- Strings as lists of characters. -/
abbrev Str := List Char

/-- Separator character used by to_snake_case (the underscore). -/
def sepChar : Char := '_'

/-- Lowercase ASCII letter or ASCII digit. -/
def isLowerAlnum (c : Char) : Bool :=
  decide ((97 ≤ c.toNat ∧ c.toNat ≤ 122) ∨ (48 ≤ c.toNat ∧ c.toNat ≤ 57))

/-- ASCII letter (either case) or ASCII digit: the character class a-zA-Z0-9
of the regular expression in to_snake_case. -/
def isAsciiAlnum (c : Char) : Bool :=
  isLowerAlnum c || decide (65 ≤ c.toNat ∧ c.toNat ≤ 90)

/-- ASCII lower-casing, as str.lower acts on the A-Z range. -/
def lowerChar (c : Char) : Char :=
  if 65 ≤ c.toNat ∧ c.toNat ≤ 90 then Char.ofNat (c.toNat + 32) else c

/-- Replace every maximal nonempty run of characters satisfying p by a single
separator: the effect of re.sub with a one-or-more character-class pattern and
replacement underscore. The flag records whether the previous input character
was inside a run already replaced. -/
def replRuns (p : Char → Bool) (inRun : Bool) : Str → Str
  | [] => []
  | c :: cs =>
    if p c then
      if inRun then replRuns p true cs else sepChar :: replRuns p true cs
    else c :: replRuns p false cs

/-- No two adjacent separator characters occur in the list. -/
def noAdjSep : Str → Bool
  | c :: d :: t => (!(c == sepChar && d == sepChar)) && noAdjSep (d :: t)
  | _ => true

/-- Remove every trailing separator character. -/
def dropTrailSep : Str → Str
  | [] => []
  | c :: cs =>
    match dropTrailSep cs with
    | [] => if c == sepChar then [] else [c]
    | r => c :: r

/-- Remove leading and trailing separator characters: str.strip with the
underscore argument. -/
def stripSep (l : Str) : Str := dropTrailSep (l.dropWhile (fun c => c == sepChar))

/-- The column/title normalizer of src/main.py: lower-case, replace each run
of characters outside a-zA-Z0-9 by one underscore, collapse runs of
underscores, strip leading and trailing underscores. -/
def to_snake_case (name : Str) : Str :=
  stripSep (replRuns (fun c => c == sepChar) false
    (replRuns (fun c => !isAsciiAlnum c) false (name.map lowerChar)))

/-- Calendar date with no time component. -/
structure Date where
  year : Nat
  month : Nat
  day : Nat
  deriving DecidableEq

/-- Gregorian leap-year test. -/
def isLeap (y : Nat) : Bool := decide ((y % 4 = 0 ∧ y % 100 ≠ 0) ∨ y % 400 = 0)

/-- Number of days of a month, with the leap-year rule for February. -/
def daysInMonth (y m : Nat) : Nat :=
  if m = 2 then (if isLeap y then 29 else 28)
  else if m = 4 ∨ m = 6 ∨ m = 9 ∨ m = 11 then 30 else 31

/-- Split a character list at each dash character. -/
def splitDash : Str → List Str
  | [] => [[]]
  | c :: cs =>
    if c = '-' then [] :: splitDash cs
    else
      match splitDash cs with
      | [] => [[c]]
      | h :: t => (c :: h) :: t

/-- Decimal value of a digit string. -/
def digitsVal (s : Str) : Nat := s.foldl (fun n c => n * 10 + (c.toNat - 48)) 0

/-- Full match of strptime's year group: the %Y pattern is four digit
characters, exactly. -/
def matchYear (s : Str) : Option Nat :=
  if s.length = 4 ∧ s.all Char.isDigit then some (digitsVal s) else none

/-- Full match of strptime's month group: the %m pattern is the alternation
of one-followed-by-0-to-2, zero-followed-by-1-to-9, and a single digit 1 to
9 (no space-padded form). -/
def matchMonth (s : Str) : Option Nat :=
  match s with
  | [a, b] =>
    if a = '1' ∧ 48 ≤ b.toNat ∧ b.toNat ≤ 50 then some (10 + (b.toNat - 48))
    else if a = '0' ∧ 49 ≤ b.toNat ∧ b.toNat ≤ 57 then some (b.toNat - 48)
    else none
  | [a] => if 49 ≤ a.toNat ∧ a.toNat ≤ 57 then some (a.toNat - 48) else none
  | _ => none

/-- Full match of strptime's day group: the %d pattern is the alternation of
three-followed-by-0-or-1, one-or-two-followed-by-a-digit,
zero-followed-by-1-to-9, a single digit 1 to 9, and a space followed by a
digit 1 to 9 (the space-padded form). -/
def matchDay (s : Str) : Option Nat :=
  match s with
  | [a, b] =>
    if a = '3' ∧ 48 ≤ b.toNat ∧ b.toNat ≤ 49 then some (30 + (b.toNat - 48))
    else if (a = '1' ∨ a = '2') ∧ 48 ≤ b.toNat ∧ b.toNat ≤ 57 then
      some ((a.toNat - 48) * 10 + (b.toNat - 48))
    else if a = '0' ∧ 49 ≤ b.toNat ∧ b.toNat ≤ 57 then some (b.toNat - 48)
    else if a = ' ' ∧ 49 ≤ b.toNat ∧ b.toNat ≤ 57 then some (b.toNat - 48)
    else none
  | [a] => if 49 ≤ a.toNat ∧ a.toNat ≤ 57 then some (a.toNat - 48) else none
  | _ => none

/-- Parse a YYYY-MM-DD string as datetime.strptime with format %Y-%m-%d
does. The compiled pattern is the year, month and day groups above joined by
literal dashes and anchored at both ends; since no group can contain a dash
and each group is followed by a literal dash or the end of the string, a
match is exactly a split at the dashes with each of the three chunks fully
matching its group. The group values then go through datetime.date, which
raises unless the year is at least 1 (it is at most 9999, having four
digits) and the day is within the month's calendar length. -/
def parseDate (s : Str) : Option Date :=
  match splitDash s with
  | [ys, ms, ds] =>
    match matchYear ys, matchMonth ms, matchDay ds with
    | some y, some m, some d =>
      if 1 ≤ y ∧ 1 ≤ d ∧ d ≤ daysInMonth y m then some ⟨y, m, d⟩ else none
    | _, _, _ => none
  | _ => none

/-- Date comparison (at most): lexicographic on year, month, day, which is
how Python date objects compare. -/
def dateLe (a b : Date) : Bool :=
  decide (a.year < b.year ∨ (a.year = b.year ∧
    (a.month < b.month ∨ (a.month = b.month ∧ a.day ≤ b.day))))

/-- Strict date comparison: lexicographic on year, month, day. -/
def dateLt (a b : Date) : Bool :=
  decide (a.year < b.year ∨ (a.year = b.year ∧
    (a.month < b.month ∨ (a.month = b.month ∧ a.day < b.day))))

/-- Decimal digits of a natural number. -/
def natDigits (n : Nat) : Str := Nat.toDigits 10 n

/-- Left-pad with zeros to width k. -/
def padZeros (k : Nat) (s : Str) : Str := List.replicate (k - s.length) '0' ++ s

/-- Render a date as YYYY-MM-DD, as date.isoformat does. -/
def isoformat (d : Date) : Str :=
  padZeros 4 (natDigits d.year) ++ '-' ::
    (padZeros 2 (natDigits d.month) ++ '-' :: padZeros 2 (natDigits d.day))

/-- One downloadable representation of a dataset. -/
structure Distribution where
  mediaType : Option Str
  downloadURL : Str
  deriving DecidableEq

/-- One entry of the remote catalog listing, with the fields main() reads.
The title and modified fields are read with dict.get, hence optional. -/
structure Dataset where
  identifier : Str
  title : Option Str
  theme : List Str
  modified : Option Str
  distribution : List Distribution
  deriving DecidableEq

/-- One unit of work appended to to_download: (url, identifier,
modified_date, title). -/
structure IngestionTask where
  url : Str
  identifier : Str
  modifiedDate : Date
  title : Str
  deriving DecidableEq

/-- The in-memory checkpoint: dataset identifier to stored watermark string. -/
abbrev Checkpoint : Type := Str → Option Str

/-- Does hay contain needle as a contiguous substring (the Python in
operator on strings)? -/
def hasSubstr (hay needle : Str) : Bool :=
  match hay with
  | [] => needle.isEmpty
  | _ :: t => needle.isPrefixOf hay || hasSubstr t needle

/-- The hard-coded topical filter of main(). -/
def hospitalsTopic : Str := "Hospitals".data

/-- The tabular media type main() selects. -/
def csvMediaType : Str := "text/csv".data

/-- Default title used when a dataset has none. -/
def untitledStr : Str := "untitled".data

/-- Comparison of the parsed modified date against the stored watermark, as
the selection loop of main() performs it: no stored entry (or a falsy empty
string) lets the descriptor through; a stored date lets it through exactly
when the new date is not at most the stored one; an unparsable nonempty
stored string raises ValueError, which the surrounding handler turns into
skipping the descriptor (false here). -/
def freshCheck (metadata : Checkpoint) (identifier : Str) (modifiedDate : Date) : Bool :=
  match metadata identifier with
  | some lastStr =>
    if lastStr.isEmpty then true
    else
      match parseDate lastStr with
      | some lastDate => !dateLe modifiedDate lastDate
      | none => false
  | none => true

/-- Per-descriptor body of main()'s selection loop: the theme filter, the
truthiness test and parse of the modified field, the comparison against the
stored watermark, and the first text/csv distribution. Returns the task
appended to to_download, or none when the descriptor is skipped. -/
def selectOne (metadata : Checkpoint) (dataset : Dataset) : Option IngestionTask :=
  if dataset.theme.any (fun th => hasSubstr th hospitalsTopic) then
    match dataset.modified with
    | some modifiedStr =>
      if modifiedStr.isEmpty then none
      else
        match parseDate modifiedStr with
        | some modifiedDate =>
          if freshCheck metadata dataset.identifier modifiedDate then
            match dataset.distribution.find?
                (fun dist => decide (dist.mediaType = some csvMediaType)) with
            | some dist =>
              some ⟨dist.downloadURL, dataset.identifier, modifiedDate,
                dataset.title.getD untitledStr⟩
            | none => none
          else none
        | none => none
    | none => none
  else none

/-- The whole selection loop of main(): to_download. -/
def selectChanges (metadata : Checkpoint) (datasets : List Dataset) : List IngestionTask :=
  datasets.filterMap (selectOne metadata)

/-- Output directory constant of src/main.py. -/
def OUTPUT_DIR : Str := "processed_csv".data

/-- Checkpoint file constant of src/main.py. -/
def METADATA_FILE : Str := "metadata.json".data

/-- File extension of the written artifacts. -/
def csvExt : Str := ".csv".data

/-- Output location of process_csv: os.path.join of OUTPUT_DIR with the
readable title, a dash, the identifier and the csv extension. -/
def output_path (title identifier : Str) : Str :=
  OUTPUT_DIR ++ '/' :: (to_snake_case title ++ '-' :: (identifier ++ csvExt))

/-- Tabular data: a header row of column labels and the data rows. -/
structure Table where
  header : List Str
  rows : List (List Str)

/-- The effectful steps of a worker task: pd.read_csv on a URL and
DataFrame.to_csv on a path, each of which may raise. -/
structure Env where
  fetchCsv : Str → Except Str Table
  writeCsv : Str → Table → Except Str Unit

/-- Column renaming of process_csv: every column label through
to_snake_case. -/
def renameColumns (t : Table) : Table := ⟨t.header.map to_snake_case, t.rows⟩

/-- Body of process_csv before the exception handler: read the CSV, rename
the columns, write to the computed output path, return True. An error at the
read or write step is the raised exception. -/
def process_csv_body (env : Env) (url identifier title : Str) : Except Str Bool := do
  let df ← env.fetchCsv url
  let df2 := renameColumns df
  let _ ← env.writeCsv (output_path title identifier) df2
  pure true

/-- process_csv of src/main.py: the body with every exception caught and
converted to the failure result False. -/
def process_csv (env : Env) (url identifier title : Str) : Bool :=
  match process_csv_body env url identifier title with
  | Except.ok b => b
  | Except.error _ => false

/-- The worker pool: one process_csv result per submitted task. -/
def runPool (env : Env) (tasks : List IngestionTask) : List Bool :=
  tasks.map (fun t => process_csv env t.url t.identifier t.title)

/-- The checkpoint-update loop at the end of main(): for every entry of
to_download (regardless of its task's result), set the identifier's entry to
the isoformat of the parsed modified date. -/
def updateMetadata (metadata : Checkpoint) (tasks : List IngestionTask) : Checkpoint :=
  tasks.foldl
    (fun acc t => fun k =>
      if k = t.identifier then some (isoformat t.modifiedDate) else acc k)
    metadata

/-- One run of main() after the catalog fetch, returning the collected task
results and the checkpoint as saved at the end of the run: select the
changes, return early when there are none, otherwise run the pool and apply
the checkpoint-update loop. -/
def mainRun (env : Env) (metadata : Checkpoint) (datasets : List Dataset) :
    List Bool × Checkpoint :=
  if (selectChanges metadata datasets).isEmpty then ([], metadata)
  else (runPool env (selectChanges metadata datasets),
    updateMetadata metadata (selectChanges metadata datasets))

/-- Filesystem operations save_metadata performs: opening a path in write
mode (which truncates it) and writing a chunk of data to an open path. A
write-temp-then-rename implementation would also use a rename operation;
save_metadata in src/main.py performs no rename. -/
inductive FsOp where
  | openTrunc (path : Str)
  | writeAll (path : Str) (data : Str)

/-- Contents of durable storage: path to file contents, absent when no file
exists at the path. -/
def FsState : Type := Str → Option Str

/-- Effect of one filesystem operation on the stored contents. -/
def applyOp (st : FsState) : FsOp → FsState
  | FsOp.openTrunc p => fun q => if q = p then some [] else st q
  | FsOp.writeAll p data => fun q => if q = p then some ((st p).getD [] ++ data) else st q

/-- Effect of a sequence of filesystem operations. -/
def applyOps (st : FsState) (ops : List FsOp) : FsState := ops.foldl applyOp st

/-- Escaping of one character inside a JSON string literal (quote and
backslash are the only characters escaped that can occur in the checkpoint's
keys and values). -/
def jsonEscapeChar (c : Char) : Str :=
  if c = '\"' ∨ c = '\\' then ['\\', c] else [c]

/-- JSON string literal for s. -/
def jsonQuote (s : Str) : Str :=
  '\"' :: s.foldr (fun c acc => jsonEscapeChar c ++ acc) ['\"']

/-- Four-space indentation used by json.dump with indent=4. -/
def indent4 : Str := "    ".data

/-- Separator between a JSON key and its value. -/
def colonSpace : Str := ": ".data

/-- Separator between two entries of an indented JSON object. -/
def commaNl : Str := ",\n".data

/-- One indented key-value line of the dumped checkpoint object. -/
def jsonEntry (kv : Str × Str) : Str :=
  indent4 ++ jsonQuote kv.1 ++ colonSpace ++ jsonQuote kv.2

/-- Serialization of the checkpoint dictionary as json.dump with indent=4
renders a string-to-string object: the entries one per line between the
braces. -/
def jsonDump (m : List (Str × Str)) : Str :=
  match m with
  | [] => [Char.ofNat 123, Char.ofNat 125]
  | _ =>
    Char.ofNat 123 :: '\n' ::
      (List.intercalate commaNl (m.map jsonEntry) ++ '\n' :: [Char.ofNat 125])

/-- Filesystem operations of save_metadata in src/main.py: open METADATA_FILE
in write mode (truncating whatever is there) and write the serialized
checkpoint into it, in place. -/
def save_metadata_ops (metadata : List (Str × Str)) : List FsOp :=
  [FsOp.openTrunc METADATA_FILE, FsOp.writeAll METADATA_FILE (jsonDump metadata)]

/-- Modelled from the spec: a sequence of filesystem operations replaces the
file at path atomically when, from every starting state and after every
prefix of the sequence (an interruption point), the path holds either its
prior contents or the final contents — the guarantee of a
write-temp-then-rename replacement, under which a crash mid-write never
leaves a half-written checkpoint. -/
def AtomicReplace (ops : List FsOp) (path : Str) : Prop :=
  ∀ st : FsState, ∀ k : Nat, k ≤ ops.length →
    applyOps st (ops.take k) path = st path ∨
      applyOps st (ops.take k) path = applyOps st ops path

/-- Identifier of the concrete example dataset A. -/
def idA : Str := "A".data

/-- Title of the concrete example dataset A. -/
def titleA : Str := "Hospital General Info".data

/-- Download URL of the concrete example dataset A. -/
def urlA : Str := "http://x/a.csv".data

/-- Modified date string of the concrete example dataset A. -/
def dateStrA : Str := "2024-03-01".data

/-- Parsed modified date of the concrete example dataset A. -/
def dateA : Date := ⟨2024, 3, 1⟩

/-- The csv distribution of the concrete example dataset A. -/
def distA : Distribution := ⟨some csvMediaType, urlA⟩

/-- A concrete catalog descriptor: Hospitals theme, valid modified date, one
text/csv distribution. -/
def dsA : Dataset := ⟨idA, some titleA, [hospitalsTopic], some dateStrA, [distA]⟩

/-- A one-descriptor catalog. -/
def cat1 : List Dataset := [dsA]

/-- The empty checkpoint. -/
def ckEmpty : Checkpoint := fun _ => none

/-- The task main() builds for dsA. -/
def taskA : IngestionTask := ⟨urlA, idA, dateA, titleA⟩

/-- An older stored watermark string. -/
def wmOld : Str := "2024-01-01".data

/-- The parsed older watermark. -/
def dateOld : Date := ⟨2024, 1, 1⟩

/-- A checkpoint storing the older watermark for dataset A. -/
def ckStale : Checkpoint := fun k => if k = idA then some wmOld else none

/-- A checkpoint storing the empty string as dataset A's watermark. -/
def ckEmptyStr : Checkpoint := fun k => if k = idA then some [] else none

/-- A fixed error message for the failing environment. -/
def errNet : Str := "connection failed".data

/-- An environment in which every download and every write raises. -/
def envFail : Env := ⟨fun _ => Except.error errNet, fun _ _ => Except.error errNet⟩

/-- A trivial table. -/
def tbl0 : Table := ⟨[], []⟩

/-- An environment in which every download and every write succeeds. -/
def envOk : Env := ⟨fun _ => Except.ok tbl0, fun _ _ => Except.ok ()⟩

/-- A concrete on-disk checkpoint dictionary, for the save model. -/
def ckDict0 : List (Str × Str) := [(idA, wmOld)]

/-- A concrete prior storage state: METADATA_FILE holds an empty JSON
object. -/
def st0 : FsState :=
  fun q => if q = METADATA_FILE then some [Char.ofNat 123, Char.ofNat 125] else none

/-- A second title that normalizes to the same string as titleA. -/
def titleB : Str := "Hospital+General+Info".data

/-- A second identifier, distinct from idA. -/
def idB : Str := "B".data


/-- A descriptor with no modified field. -/
def dsNoMod : Dataset := ⟨idB, some titleA, [hospitalsTopic], none, [distA]⟩

/-- A stored watermark string that is nonempty but not a date. -/
def wmBad : Str := "not a date".data

/-- A checkpoint storing the corrupt watermark for dataset A. -/
def ckCorrupt : Checkpoint := fun k => if k = idA then some wmBad else none

/-- Value of Char.ofNat at a valid code point. -/
theorem char_toNat_ofNat (n : Nat) (h : n.isValidChar) : (Char.ofNat n).toNat = n := by
  rw [Char.ofNat, dif_pos h]
  simp [Char.ofNatAux, Char.toNat, UInt32.toNat, BitVec.toNat_ofNatLt]

/-- Lower-casing never yields an uppercase ASCII letter. -/
theorem lowerChar_not_upper (c : Char) :
    ¬(65 ≤ (lowerChar c).toNat ∧ (lowerChar c).toNat ≤ 90) := by
  unfold lowerChar
  by_cases h : 65 ≤ c.toNat ∧ c.toNat ≤ 90
  · rw [if_pos h]
    have hv : (c.toNat + 32).isValidChar := Or.inl (by omega)
    rw [char_toNat_ofNat _ hv]
    omega
  · rw [if_neg h]
    exact h

/-- Code point of the separator character. -/
theorem sepChar_toNat : sepChar.toNat = 95 := by decide

/-- Lower-casing fixes lowercase alphanumerics and the separator. -/
theorem lowerChar_fix (c : Char) (h : isLowerAlnum c = true ∨ c = sepChar) :
    lowerChar c = c := by
  unfold lowerChar
  rcases h with h | rfl
  · have hp := of_decide_eq_true h
    rw [if_neg]
    omega
  · rw [if_neg]
    intro hc
    rw [sepChar_toNat] at hc
    omega

/-- An ASCII alphanumeric in the image of lowerChar is a lowercase
alphanumeric. -/
theorem isLowerAlnum_of_lower (c : Char) (h : isAsciiAlnum (lowerChar c) = true) :
    isLowerAlnum (lowerChar c) = true := by
  have hnu := lowerChar_not_upper c
  unfold isAsciiAlnum at h
  rcases Bool.or_eq_true_iff.mp h with h' | h'
  · exact h'
  · exact absurd (of_decide_eq_true h') hnu

/-- Characters of replRuns output: each is the separator or a kept input
character not satisfying p. -/
theorem replRuns_mem (p : Char → Bool) (l : Str) :
    ∀ (b : Bool) (x : Char), x ∈ replRuns p b l → x = sepChar ∨ (x ∈ l ∧ p x = false) := by
  induction l with
  | nil => intro b x hx; simp [replRuns] at hx
  | cons c cs ih =>
    intro b x hx
    by_cases hc : p c = true
    · rw [replRuns, if_pos hc] at hx
      cases b with
      | true =>
        rcases ih true x (by simpa using hx) with h | ⟨hmem, hp⟩
        · exact Or.inl h
        · exact Or.inr ⟨List.mem_cons_of_mem c hmem, hp⟩
      | false =>
        rcases List.mem_cons.mp (by simpa using hx) with rfl | h
        · exact Or.inl rfl
        · rcases ih true x h with h' | ⟨hmem, hp⟩
          · exact Or.inl h'
          · exact Or.inr ⟨List.mem_cons_of_mem c hmem, hp⟩
    · rw [replRuns, if_neg hc] at hx
      rcases List.mem_cons.mp hx with rfl | h
      · exact Or.inr ⟨List.mem_cons_self x cs, by simpa using hc⟩
      · rcases ih false x h with h' | ⟨hmem, hp⟩
        · exact Or.inl h'
        · exact Or.inr ⟨List.mem_cons_of_mem c hmem, hp⟩

/-- Inside a run, the next character replRuns emits is a kept one. -/
theorem replRuns_head (p : Char → Bool) (l : Str) :
    ∀ (x : Char), (replRuns p true l).head? = some x → p x = false := by
  induction l with
  | nil => intro x hx; simp [replRuns] at hx
  | cons c cs ih =>
    intro x hx
    by_cases hc : p c = true
    · rw [replRuns, if_pos hc] at hx
      exact ih x (by simpa using hx)
    · rw [replRuns, if_neg hc] at hx
      simp only [if_pos rfl, List.head?_cons, Option.some.injEq] at hx
      subst hx
      simpa using hc

/-- The tail of a list with no adjacent separators has none either. -/
theorem noAdjSep_tail (c : Char) (l : Str) (h : noAdjSep (c :: l) = true) :
    noAdjSep l = true := by
  cases l with
  | nil => rfl
  | cons d t => exact (Bool.and_eq_true_iff.mp h).2

/-- Extending a list with no adjacent separators by a safe head. -/
theorem noAdjSep_cons (c : Char) (l : Str) (hl : noAdjSep l = true)
    (h : ∀ x, l.head? = some x → c ≠ sepChar ∨ x ≠ sepChar) :
    noAdjSep (c :: l) = true := by
  cases l with
  | nil => rfl
  | cons d t =>
    rw [noAdjSep]
    refine Bool.and_eq_true_iff.mpr ⟨?_, hl⟩
    rcases h d rfl with h' | h' <;>
      simp [Bool.and_eq_true_iff, beq_iff_eq, h']

/-- In a list with no adjacent separators, the character after a separator
head is not a separator. -/
theorem noAdjSep_head (d : Char) (t : Str) (h : noAdjSep (sepChar :: d :: t) = true) :
    d ≠ sepChar := by
  rw [noAdjSep] at h
  have := (Bool.and_eq_true_iff.mp h).1
  simpa [beq_iff_eq] using this

/-- Output of replRuns has no two adjacent separators, provided p holds of
the separator itself. -/
theorem replRuns_noAdj (p : Char → Bool) (hps : p sepChar = true) (l : Str) :
    ∀ b : Bool, noAdjSep (replRuns p b l) = true := by
  induction l with
  | nil => intro b; simp [replRuns, noAdjSep]
  | cons c cs ih =>
    intro b
    by_cases hc : p c = true
    · rw [replRuns, if_pos hc]
      cases b with
      | true => simpa using ih true
      | false =>
        simp only [if_neg (by simp : ¬(false = true))]
        refine noAdjSep_cons _ _ (ih true) ?_
        intro x hx
        right
        intro hxs
        rw [hxs] at hx
        exact absurd (replRuns_head p cs _ hx) (by simp [hps])
    · rw [replRuns, if_neg hc]
      refine noAdjSep_cons _ _ (ih false) ?_
      intro x _
      left
      intro hcs
      rw [hcs] at hc
      exact hc hps

/-- replRuns is the identity on a list whose only p-characters are isolated
separators. -/
theorem replRuns_id (p : Char → Bool) :
    ∀ l : Str, (∀ c ∈ l, p c = true → c = sepChar) → noAdjSep l = true →
      replRuns p false l = l := by
  intro l
  induction l with
  | nil => intro _ _; rfl
  | cons c cs ih =>
    intro h1 h2
    by_cases hc : p c = true
    · have hcs : c = sepChar := h1 c (List.mem_cons_self c cs) hc
      subst hcs
      rw [replRuns, if_pos hc]
      simp only [if_neg (by simp : ¬(false = true))]
      congr 1
      cases cs with
      | nil => rfl
      | cons d ds =>
        have hd : d ≠ sepChar := noAdjSep_head d ds h2
        have hpd : p d = false := by
          cases hpd' : p d
          · rfl
          · exact absurd (h1 d (List.mem_cons_of_mem _ (List.mem_cons_self d ds)) hpd') hd
        have hrest : replRuns p false (d :: ds) = d :: ds :=
          ih (fun x hx hp => h1 x (List.mem_cons_of_mem _ hx) hp) (noAdjSep_tail _ _ h2)
        rw [replRuns, if_neg (by simp [hpd])] at hrest ⊢
        exact hrest
    · rw [replRuns, if_neg hc]
      congr 1
      exact ih (fun x hx hp => h1 x (List.mem_cons_of_mem _ hx) hp) (noAdjSep_tail _ _ h2)

/-- Head of dropWhile does not satisfy the dropped predicate. -/
theorem head_dropWhile (q : Char → Bool) (l : Str) :
    ∀ x, (l.dropWhile q).head? = some x → q x = false := by
  induction l with
  | nil => intro x hx; simp at hx
  | cons c cs ih =>
    intro x hx
    by_cases hc : q c = true
    · rw [List.dropWhile_cons_of_pos hc] at hx
      exact ih x hx
    · rw [List.dropWhile_cons_of_neg hc] at hx
      simp only [List.head?_cons, Option.some.injEq] at hx
      subst hx
      simpa using hc

/-- Membership in dropWhile implies membership in the list. -/
theorem mem_dropWhile (q : Char → Bool) (l : Str) :
    ∀ x, x ∈ l.dropWhile q → x ∈ l := by
  induction l with
  | nil => intro x hx; simp at hx
  | cons c cs ih =>
    intro x hx
    by_cases hc : q c = true
    · rw [List.dropWhile_cons_of_pos hc] at hx
      exact List.mem_cons_of_mem c (ih x hx)
    · rwa [List.dropWhile_cons_of_neg hc] at hx

/-- dropWhile preserves the absence of adjacent separators. -/
theorem noAdjSep_dropWhile (q : Char → Bool) (l : Str) (h : noAdjSep l = true) :
    noAdjSep (l.dropWhile q) = true := by
  induction l with
  | nil => simpa using h
  | cons c cs ih =>
    by_cases hc : q c = true
    · rw [List.dropWhile_cons_of_pos hc]
      exact ih (noAdjSep_tail _ _ h)
    · rwa [List.dropWhile_cons_of_neg hc]

/-- dropWhile is the identity when the head does not satisfy the predicate. -/
theorem dropWhile_id (q : Char → Bool) (l : Str)
    (h : ∀ x, l.head? = some x → q x = false) : l.dropWhile q = l := by
  cases l with
  | nil => rfl
  | cons c cs => exact List.dropWhile_cons_of_neg (by simp [h c rfl])

/-- dropTrailSep keeps the head of its input. -/
theorem dropTrailSep_head (l : Str) :
    ∀ d t, dropTrailSep l = d :: t → l.head? = some d := by
  induction l with
  | nil => intro d t h; simp [dropTrailSep] at h
  | cons c cs ih =>
    intro d t h
    rw [dropTrailSep] at h
    cases hr : dropTrailSep cs with
    | nil =>
      rw [hr] at h
      by_cases hc : (c == sepChar) = true
      · rw [if_pos hc] at h; cases h
      · rw [if_neg hc] at h
        cases h
        rfl
    | cons e es =>
      rw [hr] at h
      cases h
      rfl

/-- Membership in dropTrailSep implies membership in the list. -/
theorem mem_dropTrailSep (l : Str) : ∀ x, x ∈ dropTrailSep l → x ∈ l := by
  induction l with
  | nil => intro x hx; simp [dropTrailSep] at hx
  | cons c cs ih =>
    intro x hx
    rw [dropTrailSep] at hx
    cases hr : dropTrailSep cs with
    | nil =>
      rw [hr] at hx
      by_cases hc : (c == sepChar) = true
      · rw [if_pos hc] at hx; simp at hx
      · rw [if_neg hc] at hx
        rcases List.mem_singleton.mp hx with rfl
        exact List.mem_cons_self x cs
    | cons e es =>
      rw [hr] at hx
      rcases List.mem_cons.mp hx with rfl | hx'
      · exact List.mem_cons_self x cs
      · exact List.mem_cons_of_mem c (ih x (hr ▸ hx'))

/-- dropTrailSep preserves the absence of adjacent separators. -/
theorem noAdjSep_dropTrailSep (l : Str) (h : noAdjSep l = true) :
    noAdjSep (dropTrailSep l) = true := by
  induction l with
  | nil => simpa [dropTrailSep] using h
  | cons c cs ih =>
    rw [dropTrailSep]
    cases hr : dropTrailSep cs with
    | nil =>
      by_cases hc : (c == sepChar) = true
      · rw [if_pos hc]; rfl
      · rw [if_neg hc]; rfl
    | cons e es =>
      refine noAdjSep_cons _ _ (hr ▸ ih (noAdjSep_tail _ _ h)) ?_
      intro x hx
      simp only [List.head?_cons, Option.some.injEq] at hx
      have hcs : cs.head? = some e := dropTrailSep_head cs e es hr
      cases cs with
      | nil => simp at hcs
      | cons d t =>
        simp only [List.head?_cons, Option.some.injEq] at hcs
        by_cases hc : c = sepChar
        · subst hc
          refine Or.inr ?_
          rw [← hx, ← hcs]
          exact noAdjSep_head d t h
        · exact Or.inl hc

/-- dropTrailSep leaves no trailing separator. -/
theorem getLast_dropTrailSep (l : Str) : (dropTrailSep l).getLast? ≠ some sepChar := by
  induction l with
  | nil => simp [dropTrailSep]
  | cons c cs ih =>
    rw [dropTrailSep]
    cases hr : dropTrailSep cs with
    | nil =>
      by_cases hc : (c == sepChar) = true
      · rw [if_pos hc]; simp
      · rw [if_neg hc]
        simp only [List.getLast?_singleton, ne_eq, Option.some.injEq]
        intro h
        exact hc (by simp [h])
    | cons e es =>
      rw [List.getLast?_cons_cons]
      rw [hr] at ih
      exact ih

/-- dropTrailSep is the identity when the list has no trailing separator. -/
theorem dropTrailSep_id (l : Str) (h : l.getLast? ≠ some sepChar) :
    dropTrailSep l = l := by
  induction l with
  | nil => rfl
  | cons c cs ih =>
    rw [dropTrailSep]
    cases cs with
    | nil =>
      simp only [dropTrailSep]
      rw [if_neg]
      intro hc
      exact h (by simp [List.getLast?_singleton, beq_iff_eq.mp hc])
    | cons d t =>
      have htail : dropTrailSep (d :: t) = d :: t := by
        refine ih ?_
        rw [List.getLast?_cons_cons] at h
        exact h
      rw [htail]

/-- Head of stripSep output is not a separator. -/
theorem stripSep_head (l : Str) : (stripSep l).head? ≠ some sepChar := by
  unfold stripSep
  intro h
  cases hd : dropTrailSep (l.dropWhile (fun c => c == sepChar)) with
  | nil => rw [hd] at h; simp at h
  | cons d t =>
    rw [hd] at h
    simp only [List.head?_cons, Option.some.injEq] at h
    have hw := dropTrailSep_head _ d t hd
    have hq := head_dropWhile _ l d hw
    rw [h] at hq
    simp at hq

/-- Last character of stripSep output is not a separator. -/
theorem stripSep_last (l : Str) : (stripSep l).getLast? ≠ some sepChar :=
  getLast_dropTrailSep _

/-- Membership in stripSep implies membership in the list. -/
theorem mem_stripSep (l : Str) (x : Char) (h : x ∈ stripSep l) : x ∈ l :=
  mem_dropWhile _ l x (mem_dropTrailSep _ x h)

/-- stripSep preserves the absence of adjacent separators. -/
theorem noAdjSep_stripSep (l : Str) (h : noAdjSep l = true) :
    noAdjSep (stripSep l) = true :=
  noAdjSep_dropTrailSep _ (noAdjSep_dropWhile _ l h)

/-- Every character of a normalized string is a lowercase alphanumeric or the
separator. -/
theorem snake_chars (s : Str) :
    ∀ c ∈ to_snake_case s, isLowerAlnum c = true ∨ c = sepChar := by
  intro c hc
  unfold to_snake_case at hc
  have h1 := mem_stripSep _ c hc
  rcases replRuns_mem _ _ false c h1 with h | ⟨h2, _⟩
  · exact Or.inr h
  rcases replRuns_mem _ _ false c h2 with h | ⟨h3, hp⟩
  · exact Or.inr h
  have halnum : isAsciiAlnum c = true := by simpa using hp
  rcases List.mem_map.mp h3 with ⟨a, _, rfl⟩
  exact Or.inl (isLowerAlnum_of_lower a halnum)

/-- A normalized string has no two adjacent separators. -/
theorem snake_noAdj (s : Str) : noAdjSep (to_snake_case s) = true := by
  unfold to_snake_case
  exact noAdjSep_stripSep _ (replRuns_noAdj _ (by decide) _ false)

/-- A normalized string has no leading separator. -/
theorem snake_head (s : Str) : (to_snake_case s).head? ≠ some sepChar :=
  stripSep_head _

/-- A normalized string has no trailing separator. -/
theorem snake_last (s : Str) : (to_snake_case s).getLast? ≠ some sepChar :=
  stripSep_last _

/-- Lower-casing fixes a string of lowercase alphanumerics and separators. -/
theorem map_lowerChar_fix (l : Str)
    (h : ∀ c ∈ l, isLowerAlnum c = true ∨ c = sepChar) : l.map lowerChar = l := by
  induction l with
  | nil => rfl
  | cons c cs ih =>
    rw [List.map_cons, lowerChar_fix c (h c (List.mem_cons_self c cs)),
      ih (fun x hx => h x (List.mem_cons_of_mem c hx))]

/-- to_snake_case is the identity on a string that is already in normal form:
only lowercase alphanumerics and isolated separators, none at either end. -/
theorem snake_fixed (l : Str)
    (hchars : ∀ c ∈ l, isLowerAlnum c = true ∨ c = sepChar)
    (hadj : noAdjSep l = true)
    (hhead : l.head? ≠ some sepChar)
    (hlast : l.getLast? ≠ some sepChar) :
    to_snake_case l = l := by
  unfold to_snake_case
  rw [map_lowerChar_fix l hchars]
  have h1 : replRuns (fun c => !isAsciiAlnum c) false l = l := by
    refine replRuns_id _ l ?_ hadj
    intro c hc hp
    rcases hchars c hc with h | h
    · have ht : isAsciiAlnum c = true := by simp [isAsciiAlnum, h]
      have hf : isAsciiAlnum c = false := by simpa using hp
      rw [ht] at hf
      exact absurd hf (by simp)
    · exact h
  have h2 : replRuns (fun c => c == sepChar) false l = l := by
    refine replRuns_id _ l ?_ hadj
    intro c _ hp
    exact beq_iff_eq.mp hp
  rw [h1, h2]
  unfold stripSep
  rw [dropWhile_id _ l ?_, dropTrailSep_id l hlast]
  intro x hx
  have hxs : x ≠ sepChar := fun he => hhead (he ▸ hx)
  simp [hxs]

/-- C5: to_snake_case (the spec's normalize) is idempotent, and its output
contains only lowercase alphanumerics and single separator characters, with
no leading or trailing separator and no two adjacent separators. Totality
holds by construction: to_snake_case is a total function on Str. -/
theorem C5_normalize_idempotent_shape (s : Str) :
    to_snake_case (to_snake_case s) = to_snake_case s ∧
    (∀ c ∈ to_snake_case s, isLowerAlnum c = true ∨ c = sepChar) ∧
    noAdjSep (to_snake_case s) = true ∧
    (to_snake_case s).head? ≠ some sepChar ∧
    (to_snake_case s).getLast? ≠ some sepChar :=
  ⟨snake_fixed _ (snake_chars s) (snake_noAdj s) (snake_head s) (snake_last s),
   snake_chars s, snake_noAdj s, snake_head s, snake_last s⟩

/-- The dash never occurs in a normalized title. -/
theorem snake_no_dash (t : Str) : '-' ∉ to_snake_case t := by
  intro h
  rcases snake_chars t '-' h with h' | h'
  · exact absurd h' (by decide)
  · exact absurd h' (by decide)

/-- Lists followed by a dash-headed suffix split uniquely when neither part
before the dash contains a dash. -/
theorem append_dash_inj : ∀ (a b r1 r2 : Str), '-' ∉ a → '-' ∉ b →
    a ++ '-' :: r1 = b ++ '-' :: r2 → a = b ∧ r1 = r2 := by
  intro a
  induction a with
  | nil =>
    intro b r1 r2 _ hb h
    cases b with
    | nil => simpa using h
    | cons x xs =>
      simp only [List.nil_append, List.cons_append, List.cons.injEq] at h
      rcases h with ⟨rfl, _⟩
      exact absurd (List.mem_cons_self _ _) hb
  | cons x xs ih =>
    intro b r1 r2 ha hb h
    cases b with
    | nil =>
      simp only [List.cons_append, List.nil_append, List.cons.injEq] at h
      rcases h with ⟨rfl, _⟩
      exact absurd (List.mem_cons_self _ _) ha
    | cons y ys =>
      simp only [List.cons_append, List.cons.injEq] at h
      rcases h with ⟨rfl, h2⟩
      have hxs : '-' ∉ xs := fun hm => ha (List.mem_cons_of_mem _ hm)
      have hys : '-' ∉ ys := fun hm => hb (List.mem_cons_of_mem _ hm)
      rcases ih ys r1 r2 hxs hys h2 with ⟨rfl, rfl⟩
      exact ⟨rfl, rfl⟩

/-- Two output paths agree only when the identifiers agree: the normalized
title contains no dash, so the first dash after the directory marks where the
identifier starts. -/
theorem output_path_inj (t1 t2 id1 id2 : Str)
    (h : output_path t1 id1 = output_path t2 id2) : id1 = id2 := by
  unfold output_path at h
  have h1 := List.append_cancel_left h
  simp only [List.cons.injEq, true_and] at h1
  rcases append_dash_inj _ _ _ _ (snake_no_dash t1) (snake_no_dash t2) h1 with ⟨_, h2⟩
  exact List.append_cancel_right h2

/-- C7: the output file path of a task is a function of the normalized title
and the identifier alone, and two tasks with different identifiers get
different output paths even when their titles normalize identically. -/
theorem C7_output_path_det_inj (t1 t2 id1 id2 : Str) :
    (to_snake_case t1 = to_snake_case t2 →
      output_path t1 id1 = output_path t2 id1) ∧
    (id1 ≠ id2 → output_path t1 id1 ≠ output_path t2 id2) := by
  constructor
  · intro h
    unfold output_path
    rw [h]
  · intro hne h
    exact hne (output_path_inj _ _ _ _ h)

/-- Totality of the date order: when at-most fails one way, strictly-less
holds the other way. -/
theorem dateLe_false_lt (a b : Date) (h : dateLe a b = false) : dateLt b a = true := by
  unfold dateLe at h
  unfold dateLt
  rw [decide_eq_false_iff_not] at h
  rw [decide_eq_true_iff]
  omega

/-- Totality of the date order: when strictly-less fails one way, at-most
holds the other way. -/
theorem dateLt_false_le (a b : Date) (h : dateLt a b = false) : dateLe b a = true := by
  unfold dateLt at h
  unfold dateLe
  rw [decide_eq_false_iff_not] at h
  rw [decide_eq_true_iff]
  omega

/-- The empty string parses as no date. -/
theorem parseDate_nil : parseDate ([] : Str) = none := by decide

/-- A selected task carries its descriptor's identifier and the date parsed
from the descriptor's modified field. -/
theorem selectOne_spec (m : Checkpoint) (ds : Dataset) (t : IngestionTask)
    (h : selectOne m ds = some t) :
    t.identifier = ds.identifier ∧
    ∃ ms, ds.modified = some ms ∧ parseDate ms = some t.modifiedDate := by
  unfold selectOne at h
  split at h
  case isTrue =>
    split at h
    next ms hms =>
      split at h
      case isTrue => cases h
      case isFalse =>
        split at h
        next md hmd =>
          split at h
          case isTrue =>
            split at h
            next dist hdist =>
              cases h
              exact ⟨rfl, ms, hms, hmd⟩
            next hnone => cases h
          case isFalse => cases h
        next hmd => cases h
    next hnone => cases h
  case isFalse => cases h

/-- Full inversion of the selection loop: a selected task records that every
test of the loop passed, and how its fields were built. -/
theorem selectOne_inv (m : Checkpoint) (ds : Dataset) (t : IngestionTask)
    (h : selectOne m ds = some t) :
    ds.theme.any (fun th => hasSubstr th hospitalsTopic) = true ∧
    ∃ ms, ds.modified = some ms ∧ ms.isEmpty = false ∧
      parseDate ms = some t.modifiedDate ∧
      freshCheck m ds.identifier t.modifiedDate = true ∧
      ∃ dist, ds.distribution.find?
          (fun d => decide (d.mediaType = some csvMediaType)) = some dist ∧
        t = ⟨dist.downloadURL, ds.identifier, t.modifiedDate,
          ds.title.getD untitledStr⟩ := by
  unfold selectOne at h
  split at h
  case isTrue hth =>
    split at h
    next ms hms =>
      split at h
      case isTrue => cases h
      case isFalse hne =>
        split at h
        next md hmd =>
          split at h
          case isTrue hf =>
            split at h
            next dist hdist =>
              cases h
              exact ⟨hth, ms, hms, by simpa using hne, hmd, hf, dist, hdist, rfl⟩
            next hnone => cases h
          case isFalse => cases h
        next hmd => cases h
    next hnone => cases h
  case isFalse => cases h

/-- C4: a descriptor whose modified field is absent, or fails to parse as a
YYYY-MM-DD calendar date, or that has no text/csv distribution, is never
turned into a task by the selection loop. -/
theorem C4_skip_unparsable_or_no_csv (m : Checkpoint) (ds : Dataset)
    (h : ds.modified = none ∨
      (∃ ms, ds.modified = some ms ∧ parseDate ms = none) ∨
      (∀ dist ∈ ds.distribution, dist.mediaType ≠ some csvMediaType)) :
    selectOne m ds = none := by
  cases hs : selectOne m ds with
  | none => rfl
  | some t =>
    exfalso
    obtain ⟨-, ms, hms, -, hmd, -, dist, hdist, -⟩ := selectOne_inv m ds t hs
    rcases h with h | ⟨ms', hms', hbad⟩ | hnocsv
    · rw [h] at hms; cases hms
    · rw [hms'] at hms
      cases hms
      rw [hbad] at hmd
      cases hmd
    · have hmem := List.mem_of_find?_eq_some hdist
      have hp := List.find?_some hdist
      exact hnocsv dist hmem (of_decide_eq_true hp)

/-- C3: for a descriptor with a parsable stored watermark and a parsable
modified date, a task is emitted only when the modified date is strictly
newer than the stored watermark, and no task is emitted when the modified
date is at most the stored watermark. -/
theorem C3_strictly_newer_only (m : Checkpoint) (ds : Dataset) (ls ms : Str)
    (ld md : Date)
    (hm : m ds.identifier = some ls) (hld : parseDate ls = some ld)
    (hms : ds.modified = some ms) (hmd : parseDate ms = some md) :
    ((selectOne m ds).isSome = true → dateLt ld md = true) ∧
    (dateLe md ld = true → selectOne m ds = none) := by
  have hlsne : ls.isEmpty = false := by
    cases ls with
    | nil => rw [parseDate_nil] at hld; cases hld
    | cons a as => rfl
  have hfreshlt : ∀ t : IngestionTask, selectOne m ds = some t →
      dateLe md ld = false ∧ t.modifiedDate = md := by
    intro t hs
    obtain ⟨-, ms', hms', -, hmd', hf, -⟩ := selectOne_inv m ds t hs
    rw [hms'] at hms
    cases hms
    rw [hmd'] at hmd
    cases hmd
    unfold freshCheck at hf
    rw [hm] at hf
    simp only [] at hf
    rw [if_neg (by simp [hlsne]), hld] at hf
    simp only [] at hf
    exact ⟨by simpa using hf, rfl⟩
  constructor
  · intro hsome
    cases hs : selectOne m ds with
    | none => rw [hs] at hsome; cases hsome
    | some t => exact dateLe_false_lt md ld (hfreshlt t hs).1
  · intro hle
    cases hs : selectOne m ds with
    | none => rfl
    | some t =>
      exfalso
      rw [(hfreshlt t hs).1] at hle
      cases hle

/-- C10 (amended): a nonempty stored watermark string that does not parse as
a YYYY-MM-DD date makes the selection loop skip the descriptor entirely. -/
theorem C10_corrupt_watermark_skips (m : Checkpoint) (ds : Dataset) (ls : Str)
    (hm : m ds.identifier = some ls) (hne : ls.isEmpty = false)
    (hbad : parseDate ls = none) :
    selectOne m ds = none := by
  cases hs : selectOne m ds with
  | none => rfl
  | some t =>
    exfalso
    obtain ⟨-, ms, hms, -, hmd, hf, -⟩ := selectOne_inv m ds t hs
    unfold freshCheck at hf
    rw [hm] at hf
    simp only [] at hf
    rw [if_neg (by simp [hne]), hbad] at hf
    simp only [] at hf
    cases hf

/-- C10 (counterexample): an empty string stored as dataset A's watermark is
unparsable, yet the selector does not skip dataset A: the empty string is
falsy, so the comparison is bypassed and a task is emitted. -/
theorem C10_empty_watermark_not_skipped :
    ckEmptyStr idA = some [] ∧ parseDate ([] : Str) = none ∧
    selectOne ckEmptyStr dsA = some taskA ∧ selectOne ckEmptyStr dsA ≠ none := by
  refine ⟨by decide, by decide, by decide, by decide⟩

/-- The update loop leaves untouched every identifier that no task carries. -/
theorem updateMetadata_not_mem (ts : List IngestionTask) :
    ∀ (m : Checkpoint) (k : Str), (∀ t ∈ ts, t.identifier ≠ k) →
      updateMetadata m ts k = m k := by
  induction ts with
  | nil => intro m k _; rfl
  | cons t ts ih =>
    intro m k h
    have step : updateMetadata m (t :: ts) =
        updateMetadata
          (fun k' => if k' = t.identifier then some (isoformat t.modifiedDate)
            else m k') ts := rfl
    rw [step, ih _ k (fun u hu => h u (List.mem_cons_of_mem t hu))]
    show (if k = t.identifier then some (isoformat t.modifiedDate) else m k) = m k
    rw [if_neg (fun he => h t (List.mem_cons_self t ts) he.symm)]

/-- The update loop sets each task's identifier to the isoformat of its
parsed date, when task identifiers are pairwise distinct. -/
theorem updateMetadata_mem (ts : List IngestionTask) :
    ∀ (m : Checkpoint) (t : IngestionTask), t ∈ ts →
      (ts.map IngestionTask.identifier).Nodup →
      updateMetadata m ts t.identifier = some (isoformat t.modifiedDate) := by
  induction ts with
  | nil => intro m t ht _; cases ht
  | cons u us ih =>
    intro m t ht hnd
    have step : updateMetadata m (u :: us) =
        updateMetadata
          (fun k' => if k' = u.identifier then some (isoformat u.modifiedDate)
            else m k') us := rfl
    rw [step]
    have hnd' : (∀ x ∈ us, ¬ x.identifier = u.identifier) ∧
        (us.map IngestionTask.identifier).Nodup := by simpa using hnd
    rcases List.mem_cons.mp ht with heq | hmem
    · subst heq
      rw [updateMetadata_not_mem us _ _ (fun v hv => hnd'.1 v hv)]
      show (if t.identifier = t.identifier then some (isoformat t.modifiedDate)
        else m t.identifier) = some (isoformat t.modifiedDate)
      rw [if_pos rfl]
    · exact ih _ t hmem hnd'.2

/-- Unfolding of the selection loop over a catalog head. -/
theorem selectChanges_cons (m : Checkpoint) (ds : Dataset) (rest : List Dataset) :
    selectChanges m (ds :: rest) =
      match selectOne m ds with
      | some t => t :: selectChanges m rest
      | none => selectChanges m rest := by
  unfold selectChanges
  rw [List.filterMap_cons]
  cases selectOne m ds <;> rfl

/-- Identifiers of selected tasks come from the catalog. -/
theorem mem_selectChanges_ids (m : Checkpoint) :
    ∀ (cat : List Dataset) (x : Str),
      x ∈ (selectChanges m cat).map IngestionTask.identifier →
      x ∈ cat.map Dataset.identifier := by
  intro cat
  induction cat with
  | nil => intro x hx; simp [selectChanges] at hx
  | cons ds rest ih =>
    intro x hx
    rw [selectChanges_cons] at hx
    cases hsel : selectOne m ds with
    | none =>
      rw [hsel] at hx
      simp only [] at hx
      exact List.mem_cons_of_mem _ (ih x hx)
    | some t =>
      rw [hsel] at hx
      simp only [] at hx
      rw [List.map_cons] at hx
      rcases List.mem_cons.mp hx with rfl | hx'
      · rw [List.map_cons, (selectOne_spec m ds t hsel).1]
        exact List.mem_cons_self _ _
      · exact List.mem_cons_of_mem _ (ih x hx')

/-- Distinct catalog identifiers give distinct task identifiers. -/
theorem nodup_selectChanges_ids (m : Checkpoint) (cat : List Dataset)
    (h : (cat.map Dataset.identifier).Nodup) :
    ((selectChanges m cat).map IngestionTask.identifier).Nodup := by
  induction cat with
  | nil => simp [selectChanges]
  | cons ds rest ih =>
    rw [selectChanges_cons]
    have h' : (∀ x ∈ rest, ¬ x.identifier = ds.identifier) ∧
        (rest.map Dataset.identifier).Nodup := by simpa using h
    cases hsel : selectOne m ds with
    | none => exact ih h'.2
    | some t =>
      simp only [List.map_cons]
      refine List.nodup_cons.mpr ⟨?_, ih h'.2⟩
      intro hmem
      have hx := mem_selectChanges_ids m rest t.identifier hmem
      rw [(selectOne_spec m ds t hsel).1] at hx
      rcases List.mem_map.mp hx with ⟨v, hv, he⟩
      exact h'.1 v hv he

/-- A descriptor the selection loop accepts contributes its task to
to_download. -/
theorem selectOne_mem_selectChanges (m : Checkpoint) (cat : List Dataset)
    (ds : Dataset) (t : IngestionTask) (hds : ds ∈ cat)
    (hsel : selectOne m ds = some t) : t ∈ selectChanges m cat :=
  List.mem_filterMap.mpr ⟨ds, hds, hsel⟩

/-- mainRun always produces the pool's results and the update loop's
checkpoint: in the early-return case both sides are the empty run. -/
theorem mainRun_eq (env : Env) (m : Checkpoint) (cat : List Dataset) :
    mainRun env m cat =
      (runPool env (selectChanges m cat),
        updateMetadata m (selectChanges m cat)) := by
  unfold mainRun
  by_cases h : (selectChanges m cat).isEmpty = true
  · rw [if_pos h, List.isEmpty_iff.mp h]
    rfl
  · rw [if_neg h]

/-- C8: an exception in a task's fetch/transform/write body is caught inside
process_csv and becomes the per-item result False; the run's results are the
per-task map of process_csv over to_download (each task's result depends on
its own inputs alone), and the run always reaches the checkpoint-commit
stage, whatever the results are. -/
theorem C8_failure_isolated (env : Env) (m : Checkpoint) (cat : List Dataset) :
    (∀ url id ti err, process_csv_body env url id ti = Except.error err →
      process_csv env url id ti = false) ∧
    (mainRun env m cat).1 =
      (selectChanges m cat).map
        (fun t => process_csv env t.url t.identifier t.title) ∧
    (mainRun env m cat).2 = updateMetadata m (selectChanges m cat) := by
  refine ⟨?_, ?_, ?_⟩
  · intro url id ti err h
    unfold process_csv
    rw [h]
  · rw [mainRun_eq]
    rfl
  · rw [mainRun_eq]

/-- C6: when the catalog's identifiers are pairwise distinct and a selected
descriptor's task succeeds, the checkpoint saved at the end of the run maps
that descriptor's identifier to exactly the isoformat of the modified date
parsed from the descriptor. -/
theorem C6_success_sets_watermark (env : Env) (m : Checkpoint)
    (cat : List Dataset) (ds : Dataset) (t : IngestionTask)
    (hnd : (cat.map Dataset.identifier).Nodup) (hds : ds ∈ cat)
    (hsel : selectOne m ds = some t)
    (_hsucc : process_csv env t.url t.identifier t.title = true) :
    ∃ ms d, ds.modified = some ms ∧ parseDate ms = some d ∧
      (mainRun env m cat).2 ds.identifier = some (isoformat d) := by
  obtain ⟨hid, ms, hms, hmd⟩ := selectOne_spec m ds t hsel
  refine ⟨ms, t.modifiedDate, hms, hmd, ?_⟩
  rw [mainRun_eq]
  have hmem := selectOne_mem_selectChanges m cat ds t hds hsel
  rw [← hid]
  exact updateMetadata_mem _ m t hmem (nodup_selectChanges_ids m cat hnd)

/-- C1 (evaluation at the failing input): with one selected Hospitals
dataset whose download raises, the collected result is the failure False,
yet the checkpoint saved at the end of the run maps the identifier to the
new modified date instead of retaining its prior (absent) watermark: the
update loop of main() walks to_download without consulting the results. -/
theorem C1_failed_task_advances_watermark :
    (mainRun envFail ckEmpty cat1).1 = [false] ∧
    ckEmpty idA = none ∧
    (mainRun envFail ckEmpty cat1).2 idA = some dateStrA ∧
    (mainRun envFail ckEmpty cat1).2 idA ≠ ckEmpty idA := by
  refine ⟨by decide, rfl, by decide, by decide⟩

/-- C2 (evaluation at the failing input): save_metadata opens the checkpoint
file in truncating write mode and then writes the serialized mapping in
place; interrupting between the two operations leaves an empty file, which
is neither the prior contents nor the final contents, so the written
sequence is not an atomic replace. -/
theorem C2_save_not_atomic :
    applyOps st0 ((save_metadata_ops ckDict0).take 1) METADATA_FILE = some [] ∧
    applyOps st0 (save_metadata_ops ckDict0) METADATA_FILE =
      some (jsonDump ckDict0) ∧
    st0 METADATA_FILE ≠ some ([] : Str) ∧
    jsonDump ckDict0 ≠ [] ∧
    ¬ AtomicReplace (save_metadata_ops ckDict0) METADATA_FILE := by
  refine ⟨by decide, by decide, by decide, by decide, ?_⟩
  intro h
  rcases h st0 1 (by decide) with hc | hc
  · exact absurd hc (by decide)
  · exact absurd hc (by decide)

/-- Witness for C3 at a concrete checkpoint and descriptor: dataset A with
modified 2024-03-01 against a stored watermark 2024-01-01. -/
theorem C3_witness :
    ckStale dsA.identifier = some wmOld ∧ parseDate wmOld = some dateOld ∧
    dsA.modified = some dateStrA ∧ parseDate dateStrA = some dateA ∧
    (((selectOne ckStale dsA).isSome = true → dateLt dateOld dateA = true) ∧
      (dateLe dateA dateOld = true → selectOne ckStale dsA = none)) :=
  ⟨by decide, by decide, rfl, by decide,
    C3_strictly_newer_only ckStale dsA wmOld dateStrA dateOld dateA
      (by decide) (by decide) rfl (by decide)⟩

/-- Witness for C4 at a concrete descriptor with no modified field. -/
theorem C4_witness :
    (dsNoMod.modified = none ∨
      (∃ ms, dsNoMod.modified = some ms ∧ parseDate ms = none) ∨
      (∀ dist ∈ dsNoMod.distribution, dist.mediaType ≠ some csvMediaType)) ∧
    selectOne ckEmpty dsNoMod = none :=
  ⟨Or.inl rfl, C4_skip_unparsable_or_no_csv ckEmpty dsNoMod (Or.inl rfl)⟩

/-- Witness for C6 at the one-dataset catalog with a succeeding
environment. -/
theorem C6_witness :
    (cat1.map Dataset.identifier).Nodup ∧ dsA ∈ cat1 ∧
    selectOne ckEmpty dsA = some taskA ∧
    process_csv envOk taskA.url taskA.identifier taskA.title = true ∧
    (∃ ms d, dsA.modified = some ms ∧ parseDate ms = some d ∧
      (mainRun envOk ckEmpty cat1).2 dsA.identifier = some (isoformat d)) :=
  ⟨by decide, by decide, by decide, by decide,
    C6_success_sets_watermark envOk ckEmpty cat1 dsA taskA
      (by decide) (by decide) (by decide) (by decide)⟩

/-- Witness for C10's amended claim at the corrupt nonempty stored
watermark. -/
theorem C10_witness :
    ckCorrupt dsA.identifier = some wmBad ∧ wmBad.isEmpty = false ∧
    parseDate wmBad = none ∧ selectOne ckCorrupt dsA = none :=
  ⟨by decide, by decide, by decide,
    C10_corrupt_watermark_skips ckCorrupt dsA wmBad (by decide) (by decide)
      (by decide)⟩
